import Mathlib

/-!
Verification development for the prompt/image studio application.

The application's response-normalization core is embedded shallowly:
JavaScript strings become `List Char`, loosely-typed agent responses become
the inductive `JsonVal` (with a distinguished `undefined` constructor for
JavaScript's `undefined`), and each extraction routine from the source is
translated into a total Lean function.  JavaScript's truthiness, `||`,
`??`, `String.prototype.split/trim/toLowerCase`, the key-normalization
regex replace, `JSON.stringify` and the image-URL sniffing regex are all
given explicit executable models on the ASCII fragment the application
manipulates.
-/

/-- Character list of a string literal (JavaScript strings are modelled as
`List Char`). -/
def cl (s : String) : List Char := s.toList

/-- Left brace character, kept as a named constant. -/
def lbraceC : Char := Char.ofNat 123

/-- Right brace character, kept as a named constant. -/
def rbraceC : Char := Char.ofNat 125

/-- Apostrophe (single quote) character. -/
def aposC : Char := Char.ofNat 39

/-- Model of JavaScript's whitespace class `\s` (and of the characters
removed by `String.prototype.trim`) on the ASCII range. -/
def jsWs (c : Char) : Bool :=
  c == ' ' || c == '\t' || c == '\n' || c == '\r' || c == Char.ofNat 11 || c == Char.ofNat 12

/-- Model of `String.prototype.trim`: drop whitespace from both ends. -/
def jsTrim (cs : List Char) : List Char :=
  ((cs.dropWhile jsWs).reverse.dropWhile jsWs).reverse

/-- Model of `String.prototype.split(sep)` for a single-character
separator: `"".split` yields `[""]`, and a trailing separator yields a
trailing empty piece, exactly as in JavaScript. -/
def jsSplit (sep : Char) : List Char → List (List Char)
  | [] => [[]]
  | c :: cs =>
    if c = sep then [] :: jsSplit sep cs
    else
      match jsSplit sep cs with
      | [] => [[c]]
      | h :: t => (c :: h) :: t

/-- Split a line at its first colon, as `line.indexOf(':')` followed by the
two `substring` calls does; `none` models `indexOf` returning `-1`. -/
def splitFirstColon : List Char → Option (List Char × List Char)
  | [] => none
  | c :: cs =>
    if c = ':' then some ([], cs)
    else (splitFirstColon cs).map (fun p => (c :: p.1, p.2))

/-- Model of `.replace(/\s+/g, '_')`: every maximal whitespace run becomes
a single underscore.  The boolean flag records whether the previous
character was part of a whitespace run. -/
def collapseWs : Bool → List Char → List Char
  | _, [] => []
  | prev, c :: cs =>
    if jsWs c then
      if prev then collapseWs true cs else '_' :: collapseWs true cs
    else c :: collapseWs false cs

/-- Key normalization from `parseAgentTextResponse`:
`key.trim().toLowerCase().replace(/\s+/g, '_')`. -/
def normalizeKey (cs : List Char) : List Char :=
  collapseWs false ((jsTrim cs).map Char.toLower)

/-- Loosely-typed JavaScript values as delivered by the agent endpoint.
`undefined` models JavaScript's `undefined`, which the source code
distinguishes from `null` only through truthiness and nullish tests. -/
inductive JsonVal where
  | str : List Char → JsonVal
  | num : Int → JsonVal
  | bool : Bool → JsonVal
  | null : JsonVal
  | undefined : JsonVal
  | arr : List JsonVal → JsonVal
  | obj : List (List Char × JsonVal) → JsonVal

/-- JavaScript truthiness of a value (`NaN` is outside the model). -/
def truthy : JsonVal → Bool
  | .str s => !s.isEmpty
  | .num n => decide (n ≠ 0)
  | .bool b => b
  | .null => false
  | .undefined => false
  | .arr _ => true
  | .obj _ => true

/-- Guarded property access `v?.k`: objects look the key up, every other
value (including `null` and `undefined`) yields `undefined`.  The source
only ever dereferences through optional chaining or behind a truthiness
guard, so this total model covers every executed access. -/
def JsonVal.get (v : JsonVal) (k : List Char) : JsonVal :=
  match v with
  | .obj fs => (fs.lookup k).getD .undefined
  | _ => .undefined

/-- JavaScript `a || b`. -/
def jsOr (a b : JsonVal) : JsonVal := if truthy a then a else b

/-- `typeof v === 'string'`. -/
def JsonVal.isStr : JsonVal → Bool
  | .str _ => true
  | _ => false

/-- The character-list payload of a string value (only read behind an
`isStr` guard). -/
def JsonVal.strVal : JsonVal → List Char
  | .str s => s
  | _ => []

/-- Whether a value is nullish (`null` or `undefined`), the test made by
JavaScript's `??`. -/
def isNullish : JsonVal → Bool
  | .null => true
  | .undefined => true
  | _ => false

/-- JavaScript `a ?? b`. -/
def nv (a b : JsonVal) : JsonVal := if isNullish a then b else a

/-- Decimal digit character for `d % 10`-style arguments. -/
def digitChar (d : Nat) : Char :=
  if d = 0 then '0' else if d = 1 then '1' else if d = 2 then '2'
  else if d = 3 then '3' else if d = 4 then '4' else if d = 5 then '5'
  else if d = 6 then '6' else if d = 7 then '7' else if d = 8 then '8' else '9'

/-- Decimal representation of a natural number, most significant digit
first, as produced when JavaScript stringifies a non-negative integer. -/
def natDec (n : Nat) : List Char :=
  if _h : n < 10 then [digitChar n]
  else natDec (n / 10) ++ [digitChar (n % 10)]
termination_by n
decreasing_by exact Nat.div_lt_self (by omega) (by omega)

/-- Decimal representation of an integer. -/
def intDec (n : Int) : List Char :=
  if n < 0 then '-' :: natDec n.natAbs else natDec n.toNat

/-- `JSON.stringify` escaping of a single character inside a string. -/
def escChar (c : Char) : List Char :=
  if c = '"' then ['\\', '"']
  else if c = '\\' then ['\\', '\\']
  else if c = Char.ofNat 8 then ['\\', 'b']
  else if c = Char.ofNat 12 then ['\\', 'f']
  else if c = '\n' then ['\\', 'n']
  else if c = '\r' then ['\\', 'r']
  else if c = '\t' then ['\\', 't']
  else if c.toNat < 32 then
    ['\\', 'u', '0', '0', digitChar (c.toNat / 16), digitChar (c.toNat % 16)]
  else [c]

/-- `JSON.stringify` rendering of a string, quotes included.  (Control
characters above 15 use a decimal-digit stand-in for the second hex digit;
no string in any claim contains a control character.) -/
def escapeString (s : List Char) : List Char :=
  '"' :: (s.map escChar).flatten ++ ['"']

mutual

/-- Model of `JSON.stringify` on `JsonVal`.  A top-level `undefined`
renders as the empty list; the source only ever stringifies
`agentResult || {}`, which is never `undefined`. -/
def stringify : JsonVal → List Char
  | .str s => escapeString s
  | .num n => intDec n
  | .bool b => if b then cl "true" else cl "false"
  | .null => cl "null"
  | .undefined => []
  | .arr vs => '[' :: stringifyArr vs ++ [']']
  | .obj fs => lbraceC :: stringifyObj fs ++ [rbraceC]

/-- Array elements, comma separated; `undefined` elements render as
`null`, as `JSON.stringify` does. -/
def stringifyArr : List JsonVal → List Char
  | [] => []
  | v :: vs =>
    let sv := match v with
      | .undefined => cl "null"
      | w => stringify w
    match vs with
    | [] => sv
    | _ :: _ => sv ++ ',' :: stringifyArr vs

/-- Object fields, comma separated; fields holding `undefined` are
omitted, as `JSON.stringify` does. -/
def stringifyObj : List (List Char × JsonVal) → List Char
  | [] => []
  | (k, v) :: fs =>
    match v with
    | .undefined => stringifyObj fs
    | w =>
      let rest := stringifyObj fs
      escapeString k ++ ':' :: stringify w ++ (if rest.isEmpty then [] else ',' :: rest)

end

/-- Characters admitted by the regex character class in the URL-sniffing
fallback: everything except whitespace, double quote, apostrophe, comma
and closing brace. -/
def urlChar (c : Char) : Bool :=
  !(jsWs c || c == '"' || c == aposC || c == ',' || c == rbraceC)

/-- Case-insensitive literal match: does `cs` start with `pat` (given in
lower case), comparing each input character through `Char.toLower`?  This
models a literal run inside a regex carrying the `i` flag. -/
def matchesCI : List Char → List Char → Bool
  | [], _ => true
  | _ :: _, [] => false
  | p :: ps, c :: cs => (c.toLower == p) && matchesCI ps cs

/-- Length consumed by the extension alternation
`(?:png|jpg|jpeg|gif|webp)` at the head of `cs`, trying the alternatives
in the regex's order. -/
def extLen (cs : List Char) : Option Nat :=
  if matchesCI (cl "png") cs then some 3
  else if matchesCI (cl "jpg") cs then some 3
  else if matchesCI (cl "jpeg") cs then some 4
  else if matchesCI (cl "gif") cs then some 3
  else if matchesCI (cl "webp") cs then some 4
  else none

/-- Backtracking search for the greedy body `[^\s"',}]+` followed by
`\.(?:png|jpg|jpeg|gif|webp)`.  The second argument is the candidate body
length, tried from the maximal run length downwards, exactly as the greedy
`+` backtracks; a body must keep at least one character.  Returns the
total number of characters matched from the start of `cs`. -/
def bodySearch (cs : List Char) : Nat → Option Nat
  | 0 => none
  | k + 1 =>
    match (if cs.get? (k + 1) = some '.' then
             (extLen (cs.drop (k + 2))).map (fun m => k + 2 + m)
           else none) with
    | some r => some r
    | none => bodySearch cs k

/-- Match the body-and-extension part of the URL regex at the head of
`cs`. -/
def tryBody (cs : List Char) : Option Nat :=
  bodySearch cs (cs.takeWhile urlChar).length

/-- Match the whole regex `https?:\/\/[^\s"',}]+\.(?:png|jpg|jpeg|gif|webp)`
(with the `i` flag) at the head of `cs`, returning the number of
characters matched. -/
def matchUrlAt (cs : List Char) : Option Nat :=
  if matchesCI (cl "https://") cs then (tryBody (cs.drop 8)).map (fun m => 8 + m)
  else if matchesCI (cl "http://") cs then (tryBody (cs.drop 7)).map (fun m => 7 + m)
  else none

/-- `str.match(regex)` without the global flag: the leftmost match wins;
the matched substring is returned with its original (case-preserved)
characters. -/
def firstUrlMatch : List Char → Option (List Char)
  | [] => none
  | c :: cs =>
    match matchUrlAt (c :: cs) with
    | some n => some ((c :: cs).take n)
    | none => firstUrlMatch cs

/-- The normalized image-mode result record (`ImageGenResult` in the
source).  Fields hold `JsonVal` because the untyped fallback paths can
copy any JavaScript value into them. -/
@[ext]
structure ImageGenResult where
  image_url : JsonVal
  enhanced_prompt : JsonVal
  original_prompt : JsonVal
  style : JsonVal
  generation_metadata : JsonVal

/-- The all-empty record that `parseAgentTextResponse` starts from. -/
def emptyImageGenResult : ImageGenResult :=
  { image_url := .str [], enhanced_prompt := .str [], original_prompt := .str [],
    style := .str [], generation_metadata := .str [] }

/-- The if/else chain of `parseAgentTextResponse` that stores a trimmed
value under a normalized key, ignoring unrecognized keys. -/
def setKV (acc : ImageGenResult) (key value : List Char) : ImageGenResult :=
  if key = cl "image_url" then { acc with image_url := .str value }
  else if key = cl "enhanced_prompt" then { acc with enhanced_prompt := .str value }
  else if key = cl "original_prompt" then { acc with original_prompt := .str value }
  else if key = cl "style" then { acc with style := .str value }
  else if key = cl "generation_metadata" then { acc with generation_metadata := .str value }
  else acc

/-- One iteration of the parser's line loop: lines without a colon are
skipped (`continue`), otherwise the normalized key and trimmed value are
stored. -/
def applyParsedLine (acc : ImageGenResult) (line : List Char) : ImageGenResult :=
  match splitFirstColon line with
  | none => acc
  | some (k0, v0) => setKV acc (normalizeKey k0) (jsTrim v0)

/-- The parser's loop over the split lines. -/
def parseLines (lines : List (List Char)) : ImageGenResult :=
  lines.foldl applyParsedLine emptyImageGenResult

/-- `parseAgentTextResponse(text)` from the source: the `!text` guard
returns the empty record for the empty string (the `typeof` guard is
subsumed by the argument type), then the line loop runs over
`text.split('\n')`. -/
def parseAgentTextResponse (text : List Char) : ImageGenResult :=
  if text.isEmpty then emptyImageGenResult
  else parseLines (jsSplit '\n' text)

/-- Cases 3 to 6 of `extractImageResult`: the `data` path, the direct
top-level path, the whole-result-is-a-string path, and the
`JSON.stringify` URL-sniffing fallback. -/
def extractCase3to6 (raw : JsonVal) : ImageGenResult :=
  if truthy (raw.get (cl "data")) then
    { image_url := jsOr ((raw.get (cl "data")).get (cl "image_url")) (.str []),
      enhanced_prompt := jsOr ((raw.get (cl "data")).get (cl "enhanced_prompt")) (.str []),
      original_prompt := jsOr ((raw.get (cl "data")).get (cl "original_prompt")) (.str []),
      style := jsOr ((raw.get (cl "data")).get (cl "style")) (.str []),
      generation_metadata := jsOr ((raw.get (cl "data")).get (cl "generation_metadata")) (.str []) }
  else if truthy (raw.get (cl "image_url")) then
    { image_url := jsOr (raw.get (cl "image_url")) (.str []),
      enhanced_prompt := jsOr (raw.get (cl "enhanced_prompt")) (.str []),
      original_prompt := jsOr (raw.get (cl "original_prompt")) (.str []),
      style := jsOr (raw.get (cl "style")) (.str []),
      generation_metadata := jsOr (raw.get (cl "generation_metadata")) (.str []) }
  else
    match raw with
    | .str s => parseAgentTextResponse s
    | _ =>
      match firstUrlMatch (stringify (jsOr raw (.obj []))) with
      | some u =>
        { image_url := .str u,
          enhanced_prompt := jsOr (raw.get (cl "enhanced_prompt")) (jsOr (raw.get (cl "summary")) (.str [])),
          original_prompt := jsOr (raw.get (cl "original_prompt")) (.str []),
          style := jsOr (raw.get (cl "style")) (.str []),
          generation_metadata := .str [] }
      | none => emptyImageGenResult

/-- `extractImageResult(agentResult)` from the source.  Case 1 returns the
parse of a truthy string `text` field unconditionally; case 2 returns the
parse of a truthy string `message` field only when it produced a truthy
`image_url`, otherwise execution falls through to the remaining cases. -/
def extractImageResult (raw : JsonVal) : ImageGenResult :=
  if truthy (raw.get (cl "text")) && (raw.get (cl "text")).isStr then
    parseAgentTextResponse (raw.get (cl "text")).strVal
  else if truthy (raw.get (cl "message")) && (raw.get (cl "message")).isStr then
    if truthy (parseAgentTextResponse (raw.get (cl "message")).strVal).image_url then
      parseAgentTextResponse (raw.get (cl "message")).strVal
    else extractCase3to6 raw
  else extractCase3to6 raw

/-- The parser as the caller invokes it on a value of unknown type: the
parser's own `typeof text !== 'string'` guard makes every non-string
argument yield the empty record. -/
def parseAny (v : JsonVal) : ImageGenResult :=
  match v with
  | .str s => parseAgentTextResponse s
  | _ => emptyImageGenResult

/-- One fallback block of the image-mode `handleGenerate` caller (the same
statement block appears once for `result.response.message` and once for
`result.raw_response`): while `image_url` is still falsy and the source
value is truthy, parse it; on a truthy parsed `image_url`, overwrite
`image_url` and fill `enhanced_prompt` and `style` only if they are still
falsy. -/
def mergeStep (d : ImageGenResult) (src : JsonVal) : ImageGenResult :=
  if !truthy d.image_url && truthy src then
    if truthy (parseAny src).image_url then
      { d with
        image_url := (parseAny src).image_url,
        enhanced_prompt := if !truthy d.enhanced_prompt then (parseAny src).enhanced_prompt else d.enhanced_prompt,
        style := if !truthy d.style then (parseAny src).style else d.style }
    else d
  else d

/-- The caller's final step: if `original_prompt` is still falsy, fill it
with the user's trimmed prompt text. -/
def origFill (d : ImageGenResult) (promptText : List Char) : ImageGenResult :=
  if !truthy d.original_prompt then { d with original_prompt := .str (jsTrim promptText) }
  else d

/-- The image-mode `handleGenerate` post-extraction pipeline on a
successful agent call: extract from `response.result`, then the
`response.message` fallback, then the `raw_response` fallback, then the
`original_prompt` fill. -/
def handleGenerateImageData (agentResult respMessage rawResponse : JsonVal)
    (promptText : List Char) : ImageGenResult :=
  origFill (mergeStep (mergeStep (extractImageResult agentResult) respMessage) rawResponse) promptText

/-- A history entry (`HistoryItem` in the source). -/
structure HistoryItem where
  id : List Char
  prompt : List Char
  style : List Char
  size : List Char
  quality : List Char
  result : Option ImageGenResult
  timestamp : Nat

/-- The history entry built on a successful generation.  `Date.now()` is
modelled by the explicit clock reading `now` (the source reads the clock
twice in the object literal; both reads are modelled by the same
millisecond value).  The id is the template literal
`` `gen-${Date.now()}` ``: the prefix `gen-` followed by the decimal
clock reading, with no random component. -/
def mkHistoryItem (now : Nat) (prompt style size quality : List Char)
    (res : ImageGenResult) : HistoryItem :=
  { id := cl "gen-" ++ natDec now,
    prompt := jsTrim prompt,
    style := style, size := size, quality := quality,
    result := some res,
    timestamp := now }

/-- The history update `setHistory((prev) => [newItem, ...prev.slice(0, 49)])`. -/
def appendHistory (prev : List HistoryItem) (e : HistoryItem) : List HistoryItem :=
  e :: prev.take 49

/-- The enhancement-mode data record (`ImageGenData` in `src/app/page.tsx`);
fields hold `JsonVal` because the nullish chains can copy any value. -/
@[ext]
structure ImageGenData where
  enhanced_prompt : JsonVal
  style_suggestion : JsonVal
  size_recommendation : JsonVal
  quality_notes : JsonVal
  original_prompt : JsonVal

/-- `extractImageData(result)` from `src/app/page.tsx`: `summary` is
`result?.summary ?? ''`; every data field is the left-associated nullish
chain `nested?.<field> ?? result?.<field> ?? ''` with
`nested = result?.data`.  The pair is `(data, summary)`. -/
def extractImageData (result : JsonVal) : ImageGenData × JsonVal :=
  ({ enhanced_prompt :=
       nv (nv ((result.get (cl "data")).get (cl "enhanced_prompt")) (result.get (cl "enhanced_prompt"))) (.str []),
     style_suggestion :=
       nv (nv ((result.get (cl "data")).get (cl "style_suggestion")) (result.get (cl "style_suggestion"))) (.str []),
     size_recommendation :=
       nv (nv ((result.get (cl "data")).get (cl "size_recommendation")) (result.get (cl "size_recommendation"))) (.str []),
     quality_notes :=
       nv (nv ((result.get (cl "data")).get (cl "quality_notes")) (result.get (cl "quality_notes"))) (.str []),
     original_prompt :=
       nv (nv ((result.get (cl "data")).get (cl "original_prompt")) (result.get (cl "original_prompt"))) (.str []) },
   nv (result.get (cl "summary")) (.str []))

/-- Modelled from the spec's description of the parser's contract (and
used only to compare against the source translation): the key/value pair
a line contributes, if any. -/
def lineKV (line : List Char) : Option (List Char × List Char) :=
  match splitFirstColon line with
  | none => none
  | some (k0, v0) => some (normalizeKey k0, jsTrim v0)

/-- The value the last line carrying the recognized key `k` contributes
(later lines win), or `none` when no line carries `k`. -/
def lastVal (k : List Char) : List (List Char) → Option (List Char)
  | [] => none
  | l :: ls =>
    match lastVal k ls with
    | some v => some v
    | none =>
      match lineKV l with
      | some p => if p.1 = k then some p.2 else none
      | none => none

/-- The field value the spec's reading of the parser assigns for a
recognized key: the last matching line's trimmed value, defaulting to the
empty string. -/
def specParsedField (text : List Char) (k : List Char) : JsonVal :=
  match lastVal k (jsSplit '\n' text) with
  | some v => .str v
  | none => .str []

/-! ### Helper lemmas about the embedded primitives -/

theorem jsSplit_ne_nil (sep : Char) (cs : List Char) : jsSplit sep cs ≠ [] := by
  induction cs with
  | nil => simp [jsSplit]
  | cons c cs ih =>
    unfold jsSplit
    split
    · simp
    · split
      · simp
      · simp

theorem jsSplit_cons_sep (sep : Char) (cs : List Char) :
    jsSplit sep (sep :: cs) = [] :: jsSplit sep cs := by
  conv_lhs => rw [jsSplit]
  simp

theorem jsSplit_cons_ne (sep c : Char) (cs : List Char) (h : c ≠ sep) :
    jsSplit sep (c :: cs) =
      match jsSplit sep cs with
      | [] => [[c]]
      | l :: t => (c :: l) :: t := by
  conv_lhs => rw [jsSplit]
  simp [h]

theorem jsSplit_append (sep : Char) (xs ys : List Char) :
    jsSplit sep (xs ++ sep :: ys) = jsSplit sep xs ++ jsSplit sep ys := by
  induction xs with
  | nil => simp [jsSplit_cons_sep, jsSplit]
  | cons c xs ih =>
    by_cases hc : c = sep
    · subst hc
      rw [List.cons_append, jsSplit_cons_sep, jsSplit_cons_sep, ih, List.cons_append]
    · rw [List.cons_append, jsSplit_cons_ne sep c _ hc, jsSplit_cons_ne sep c _ hc, ih]
      cases hx : jsSplit sep xs with
      | nil => exact absurd hx (jsSplit_ne_nil sep xs)
      | cons l t => simp

theorem jsSplit_no_sep (sep : Char) (xs : List Char) (h : sep ∉ xs) :
    jsSplit sep xs = [xs] := by
  induction xs with
  | nil => rfl
  | cons c xs ih =>
    have hc : c ≠ sep := fun e => h (e ▸ List.mem_cons_self c xs)
    rw [jsSplit_cons_ne sep c xs hc, ih (fun hm => h (List.mem_cons_of_mem c hm))]


theorem setKV_image_url (acc : ImageGenResult) (k v : List Char) :
    (setKV acc k v).image_url = if k = cl "image_url" then JsonVal.str v else acc.image_url := by
  unfold setKV
  by_cases h : k = cl "image_url"
  · simp [h]
  · rw [if_neg h, if_neg h]
    split_ifs <;> rfl

theorem setKV_enhanced_prompt (acc : ImageGenResult) (k v : List Char) :
    (setKV acc k v).enhanced_prompt = if k = cl "enhanced_prompt" then JsonVal.str v else acc.enhanced_prompt := by
  unfold setKV
  by_cases h : k = cl "enhanced_prompt"
  · subst h
    simp [show ¬(cl "enhanced_prompt" = cl "image_url") from by decide]
  · rw [if_neg h, if_neg h]
    split_ifs <;> rfl

theorem setKV_original_prompt (acc : ImageGenResult) (k v : List Char) :
    (setKV acc k v).original_prompt = if k = cl "original_prompt" then JsonVal.str v else acc.original_prompt := by
  unfold setKV
  by_cases h : k = cl "original_prompt"
  · subst h
    simp [show ¬(cl "original_prompt" = cl "image_url") from by decide,
          show ¬(cl "original_prompt" = cl "enhanced_prompt") from by decide]
  · rw [if_neg h, if_neg h]
    split_ifs <;> rfl

theorem setKV_style (acc : ImageGenResult) (k v : List Char) :
    (setKV acc k v).style = if k = cl "style" then JsonVal.str v else acc.style := by
  unfold setKV
  by_cases h : k = cl "style"
  · subst h
    simp [show ¬(cl "style" = cl "image_url") from by decide,
          show ¬(cl "style" = cl "enhanced_prompt") from by decide,
          show ¬(cl "style" = cl "original_prompt") from by decide]
  · rw [if_neg h, if_neg h]
    split_ifs <;> rfl

theorem setKV_generation_metadata (acc : ImageGenResult) (k v : List Char) :
    (setKV acc k v).generation_metadata = if k = cl "generation_metadata" then JsonVal.str v else acc.generation_metadata := by
  unfold setKV
  by_cases h : k = cl "generation_metadata"
  · subst h
    simp [show ¬(cl "generation_metadata" = cl "image_url") from by decide,
          show ¬(cl "generation_metadata" = cl "enhanced_prompt") from by decide,
          show ¬(cl "generation_metadata" = cl "original_prompt") from by decide,
          show ¬(cl "generation_metadata" = cl "style") from by decide]
  · rw [if_neg h, if_neg h]
    split_ifs <;> rfl

theorem lastVal_cons (k : List Char) (l : List Char) (ls : List (List Char)) :
    lastVal k (l :: ls) =
      match lastVal k ls with
      | some v => some v
      | none =>
        match lineKV l with
        | some p => if p.1 = k then some p.2 else none
        | none => none := rfl

theorem foldl_image_url (lines : List (List Char)) :
    ∀ acc : ImageGenResult,
      (lines.foldl applyParsedLine acc).image_url =
        match lastVal (cl "image_url") lines with
        | some v => JsonVal.str v
        | none => acc.image_url := by
  induction lines with
  | nil => intro acc; rfl
  | cons l ls ih =>
    intro acc
    rw [List.foldl_cons, ih, lastVal_cons]
    cases hls : lastVal (cl "image_url") ls with
    | some v => rfl
    | none =>
      cases hsc : splitFirstColon l with
      | none => simp [applyParsedLine, lineKV, hsc]
      | some p =>
        obtain ⟨k0, v0⟩ := p
        by_cases hk : normalizeKey k0 = cl "image_url"
        · simp [applyParsedLine, lineKV, hsc, hk, setKV_image_url]
        · simp [applyParsedLine, lineKV, hsc, hk, setKV_image_url]

theorem foldl_enhanced_prompt (lines : List (List Char)) :
    ∀ acc : ImageGenResult,
      (lines.foldl applyParsedLine acc).enhanced_prompt =
        match lastVal (cl "enhanced_prompt") lines with
        | some v => JsonVal.str v
        | none => acc.enhanced_prompt := by
  induction lines with
  | nil => intro acc; rfl
  | cons l ls ih =>
    intro acc
    rw [List.foldl_cons, ih, lastVal_cons]
    cases hls : lastVal (cl "enhanced_prompt") ls with
    | some v => rfl
    | none =>
      cases hsc : splitFirstColon l with
      | none => simp [applyParsedLine, lineKV, hsc]
      | some p =>
        obtain ⟨k0, v0⟩ := p
        by_cases hk : normalizeKey k0 = cl "enhanced_prompt"
        · simp [applyParsedLine, lineKV, hsc, hk, setKV_enhanced_prompt]
        · simp [applyParsedLine, lineKV, hsc, hk, setKV_enhanced_prompt]

theorem foldl_original_prompt (lines : List (List Char)) :
    ∀ acc : ImageGenResult,
      (lines.foldl applyParsedLine acc).original_prompt =
        match lastVal (cl "original_prompt") lines with
        | some v => JsonVal.str v
        | none => acc.original_prompt := by
  induction lines with
  | nil => intro acc; rfl
  | cons l ls ih =>
    intro acc
    rw [List.foldl_cons, ih, lastVal_cons]
    cases hls : lastVal (cl "original_prompt") ls with
    | some v => rfl
    | none =>
      cases hsc : splitFirstColon l with
      | none => simp [applyParsedLine, lineKV, hsc]
      | some p =>
        obtain ⟨k0, v0⟩ := p
        by_cases hk : normalizeKey k0 = cl "original_prompt"
        · simp [applyParsedLine, lineKV, hsc, hk, setKV_original_prompt]
        · simp [applyParsedLine, lineKV, hsc, hk, setKV_original_prompt]

theorem foldl_style (lines : List (List Char)) :
    ∀ acc : ImageGenResult,
      (lines.foldl applyParsedLine acc).style =
        match lastVal (cl "style") lines with
        | some v => JsonVal.str v
        | none => acc.style := by
  induction lines with
  | nil => intro acc; rfl
  | cons l ls ih =>
    intro acc
    rw [List.foldl_cons, ih, lastVal_cons]
    cases hls : lastVal (cl "style") ls with
    | some v => rfl
    | none =>
      cases hsc : splitFirstColon l with
      | none => simp [applyParsedLine, lineKV, hsc]
      | some p =>
        obtain ⟨k0, v0⟩ := p
        by_cases hk : normalizeKey k0 = cl "style"
        · simp [applyParsedLine, lineKV, hsc, hk, setKV_style]
        · simp [applyParsedLine, lineKV, hsc, hk, setKV_style]

theorem foldl_generation_metadata (lines : List (List Char)) :
    ∀ acc : ImageGenResult,
      (lines.foldl applyParsedLine acc).generation_metadata =
        match lastVal (cl "generation_metadata") lines with
        | some v => JsonVal.str v
        | none => acc.generation_metadata := by
  induction lines with
  | nil => intro acc; rfl
  | cons l ls ih =>
    intro acc
    rw [List.foldl_cons, ih, lastVal_cons]
    cases hls : lastVal (cl "generation_metadata") ls with
    | some v => rfl
    | none =>
      cases hsc : splitFirstColon l with
      | none => simp [applyParsedLine, lineKV, hsc]
      | some p =>
        obtain ⟨k0, v0⟩ := p
        by_cases hk : normalizeKey k0 = cl "generation_metadata"
        · simp [applyParsedLine, lineKV, hsc, hk, setKV_generation_metadata]
        · simp [applyParsedLine, lineKV, hsc, hk, setKV_generation_metadata]

/-- For every input, the parser returns, field by field, the last matching
line's trimmed value (empty when no line carries the key). -/
theorem parse_characterization (text : List Char) :
    parseAgentTextResponse text =
      { image_url := specParsedField text (cl "image_url"),
        enhanced_prompt := specParsedField text (cl "enhanced_prompt"),
        original_prompt := specParsedField text (cl "original_prompt"),
        style := specParsedField text (cl "style"),
        generation_metadata := specParsedField text (cl "generation_metadata") } := by
  unfold parseAgentTextResponse
  split
  · rename_i he
    have : text = [] := by simpa using he
    subst this
    rfl
  · unfold parseLines
    ext
    · rw [foldl_image_url]
      unfold specParsedField
      cases h : lastVal (cl "image_url") (jsSplit '\n' text) <;> simp [h, emptyImageGenResult]
    · rw [foldl_enhanced_prompt]
      unfold specParsedField
      cases h : lastVal (cl "enhanced_prompt") (jsSplit '\n' text) <;> simp [h, emptyImageGenResult]
    · rw [foldl_original_prompt]
      unfold specParsedField
      cases h : lastVal (cl "original_prompt") (jsSplit '\n' text) <;> simp [h, emptyImageGenResult]
    · rw [foldl_style]
      unfold specParsedField
      cases h : lastVal (cl "style") (jsSplit '\n' text) <;> simp [h, emptyImageGenResult]
    · rw [foldl_generation_metadata]
      unfold specParsedField
      cases h : lastVal (cl "generation_metadata") (jsSplit '\n' text) <;> simp [h, emptyImageGenResult]

/-- C1: for every input string, `parseAgentTextResponse` splits on newline
characters and, for each line containing a colon, stores the trimmed text
after the first colon under the trimmed, lower-cased,
whitespace-run-to-underscore-normalized key, keeping the value only for
the five recognized field names; colon-free lines and unrecognized keys
contribute nothing, unset fields stay the empty string, and parsing is
total.  The stated concrete scenario evaluates as claimed. -/
theorem parseKeyValue_contract_C1 :
    (∀ text : List Char,
      parseAgentTextResponse text =
        { image_url := specParsedField text (cl "image_url"),
          enhanced_prompt := specParsedField text (cl "enhanced_prompt"),
          original_prompt := specParsedField text (cl "original_prompt"),
          style := specParsedField text (cl "style"),
          generation_metadata := specParsedField text (cl "generation_metadata") }) ∧
    parseAgentTextResponse (cl "image_url: http://a.com/i.png\nenhanced_prompt: a cat") =
      { image_url := .str (cl "http://a.com/i.png"),
        enhanced_prompt := .str (cl "a cat"),
        original_prompt := .str [],
        style := .str [],
        generation_metadata := .str [] } :=
  ⟨parse_characterization, rfl⟩

theorem lastVal_append (k : List Char) (xs ys : List (List Char)) :
    lastVal k (xs ++ ys) =
      match lastVal k ys with
      | some v => some v
      | none => lastVal k xs := by
  induction xs with
  | nil =>
    cases h : lastVal k ys <;> simp [h, lastVal]
  | cons l ls ih =>
    rw [List.cons_append, lastVal_cons, ih, lastVal_cons]
    cases h : lastVal k ys <;> cases h2 : lastVal k ls <;> rfl

theorem specParsedField_append_line (t line : List Char) (hnl : '\n' ∉ line)
    (k v : List Char) (hkv : lineKV line = some (k, v)) :
    specParsedField (t ++ '\n' :: line) k = .str v := by
  unfold specParsedField
  rw [jsSplit_append, jsSplit_no_sep _ _ hnl, lastVal_append]
  simp [lastVal_cons, lastVal, hkv]

/-- C10: when the same recognized key occurs on several lines, the last
line wins: appending a further line carrying a recognized key overwrites
that field with the new trimmed value, whatever (possibly non-empty) value
earlier lines produced, including overwriting with the empty string. -/
theorem parse_lastLineWins_C10 (t line : List Char) (hnl : '\n' ∉ line) :
    (∀ v, lineKV line = some (cl "image_url", v) →
       (parseAgentTextResponse (t ++ '\n' :: line)).image_url = .str v) ∧
    (∀ v, lineKV line = some (cl "enhanced_prompt", v) →
       (parseAgentTextResponse (t ++ '\n' :: line)).enhanced_prompt = .str v) ∧
    (∀ v, lineKV line = some (cl "original_prompt", v) →
       (parseAgentTextResponse (t ++ '\n' :: line)).original_prompt = .str v) ∧
    (∀ v, lineKV line = some (cl "style", v) →
       (parseAgentTextResponse (t ++ '\n' :: line)).style = .str v) ∧
    (∀ v, lineKV line = some (cl "generation_metadata", v) →
       (parseAgentTextResponse (t ++ '\n' :: line)).generation_metadata = .str v) := by
  refine ⟨?_, ?_, ?_, ?_, ?_⟩ <;> intro v hkv <;> rw [parse_characterization] <;>
    exact specParsedField_append_line t line hnl _ v hkv

/-- Witness for C10: a later `image_url:` line with a blank value replaces
the non-empty value an earlier line set. -/
theorem parse_lastLineWins_C10_witness :
    (parseAgentTextResponse (cl "image_url: http://a.com/i.png\nimage_url:")).image_url = .str [] :=
  (parse_lastLineWins_C10 (cl "image_url: http://a.com/i.png") (cl "image_url:")
    (by decide)).1 [] (by decide)

/-- A response whose `text` field is the empty string while `data` carries
an image URL: case 1's truthiness guard skips the empty string. -/
def rawTextEmpty : JsonVal :=
  .obj [(cl "text", .str []),
        (cl "data", .obj [(cl "image_url", .str (cl "http://a.com/i.png"))])]

/-- C2 counterexample: `rawTextEmpty.text` is a string, yet
`extractImageResult` does not return the parse of it — the `data` strategy
is consulted and wins, because the source requires `text` to be truthy,
not merely a string. -/
theorem extractText_counterexample_C2 :
    (rawTextEmpty.get (cl "text")).isStr = true ∧
    extractImageResult rawTextEmpty ≠
      parseAgentTextResponse (rawTextEmpty.get (cl "text")).strVal := by
  refine ⟨rfl, fun h => ?_⟩
  have h2 : JsonVal.str (cl "http://a.com/i.png") = JsonVal.str [] :=
    congrArg ImageGenResult.image_url h
  injection h2 with h3
  exact absurd h3 (by decide)

/-- C2 amended: for every raw response whose `text` field is a non-empty
string, `extractImageResult` returns the key-value parse of that string
immediately, whatever else the response carries. -/
theorem extractText_immediate_C2 (raw : JsonVal) (s : List Char)
    (h : raw.get (cl "text") = .str s) (hs : s ≠ []) :
    extractImageResult raw = parseAgentTextResponse s := by
  have ht : truthy (JsonVal.str s) = true := by
    cases s with
    | nil => exact absurd rfl hs
    | cons a as => rfl
  unfold extractImageResult
  rw [h, ht]
  simp [JsonVal.isStr, JsonVal.strVal]

/-- Witness for C2 (amended): a concrete response with a non-empty `text`
field, also carrying a `data` field that is ignored. -/
theorem extractText_immediate_C2_witness :
    extractImageResult
        (.obj [(cl "text", .str (cl "enhanced_prompt: a cat")),
               (cl "data", .obj [(cl "image_url", .str (cl "http://b.com/j.png"))])]) =
      parseAgentTextResponse (cl "enhanced_prompt: a cat") :=
  extractText_immediate_C2 _ (cl "enhanced_prompt: a cat") rfl (by decide)

/-- A response carrying both a truthy string `text` field and a `message`
field whose parse yields a non-empty `image_url`. -/
def rawTextAndMessage : JsonVal :=
  .obj [(cl "text", .str (cl "x")),
        (cl "message", .str (cl "image_url: http://a.com/i.png"))]

/-- C3 counterexample: `rawTextAndMessage.message` is a string whose parse
yields a non-empty `image_url`, yet `extractImageResult` does not return
that parsed record — case 1 (the `text` field) preempts the message
path. -/
theorem extractMessage_counterexample_C3 :
    rawTextAndMessage.get (cl "message") = .str (cl "image_url: http://a.com/i.png") ∧
    truthy (parseAgentTextResponse (cl "image_url: http://a.com/i.png")).image_url = true ∧
    extractImageResult rawTextAndMessage ≠
      parseAgentTextResponse (cl "image_url: http://a.com/i.png") := by
  refine ⟨rfl, rfl, fun h => ?_⟩
  have h2 : JsonVal.str ([] : List Char) = JsonVal.str (cl "http://a.com/i.png") :=
    congrArg ImageGenResult.image_url h
  injection h2 with h3
  exact absurd h3 (by decide)

/-- C3 amended: when case 1 does not fire (no truthy string `text` field)
and `message` is a string, the extractor returns the parse of `message`
exactly when that parse has a truthy `image_url` — whatever `data`
carries — and otherwise discards it and falls through to the remaining
strategies (cases 3 to 6). -/
theorem extractMessage_priority_C3 (raw : JsonVal) (s : List Char)
    (htext : (truthy (raw.get (cl "text")) && (raw.get (cl "text")).isStr) = false)
    (hmsg : raw.get (cl "message") = .str s) :
    (truthy (parseAgentTextResponse s).image_url = true →
       extractImageResult raw = parseAgentTextResponse s) ∧
    (truthy (parseAgentTextResponse s).image_url = false →
       extractImageResult raw = extractCase3to6 raw) := by
  constructor <;> intro hp
  · have hs : s ≠ [] := by
      intro e
      rw [e] at hp
      exact absurd hp (by decide)
    have ht : truthy (JsonVal.str s) = true := by
      cases s with
      | nil => exact absurd rfl hs
      | cons a as => rfl
    unfold extractImageResult
    rw [htext, hmsg, ht]
    simp [JsonVal.isStr, JsonVal.strVal, hp]
  · by_cases hs : s = []
    · subst hs
      unfold extractImageResult
      rw [htext, hmsg]
      simp [truthy, JsonVal.isStr]
    · have ht : truthy (JsonVal.str s) = true := by
        cases s with
        | nil => exact absurd rfl hs
        | cons a as => rfl
      unfold extractImageResult
      rw [htext, hmsg, ht]
      simp [JsonVal.isStr, JsonVal.strVal, hp]

/-- Witness for C3 (amended): with both `message` (parseable, non-empty
`image_url`) and `data` populated and no `text` field, the message path
wins over the data path. -/
theorem extractMessage_priority_C3_witness :
    extractImageResult
        (.obj [(cl "message", .str (cl "image_url: http://a.com/i.png")),
               (cl "data", .obj [(cl "image_url", .str (cl "http://b.com/j.png"))])]) =
      parseAgentTextResponse (cl "image_url: http://a.com/i.png") :=
  (extractMessage_priority_C3
      (.obj [(cl "message", .str (cl "image_url: http://a.com/i.png")),
             (cl "data", .obj [(cl "image_url", .str (cl "http://b.com/j.png"))])])
      (cl "image_url: http://a.com/i.png") (by decide) rfl).1 rfl

/-- C4: when none of the earlier strategies fires (case 1's `text` guard
fails, no `message` parse yields a truthy `image_url`, `data` and
`image_url` are falsy and the response is not itself a string), the
extractor serializes `agentResult || {}` with `JSON.stringify` and scans
the text with the regex `https?:\/\/[^\s"',}]+\.(?:png|jpg|jpeg|gif|webp)`
(case-insensitive): the first match becomes `image_url`,
`enhanced_prompt` is best-effort-populated from `raw.enhanced_prompt` or
`raw.summary`, and with no match every field is empty. -/
theorem extractFallback_sniff_C4 (raw : JsonVal)
    (h1 : (truthy (raw.get (cl "text")) && (raw.get (cl "text")).isStr) = false)
    (h2 : ∀ s, raw.get (cl "message") = .str s →
       truthy (parseAgentTextResponse s).image_url = false)
    (h3 : truthy (raw.get (cl "data")) = false)
    (h4 : truthy (raw.get (cl "image_url")) = false)
    (h5 : raw.isStr = false) :
    extractImageResult raw =
      match firstUrlMatch (stringify (jsOr raw (.obj []))) with
      | some u =>
        { image_url := .str u,
          enhanced_prompt := jsOr (raw.get (cl "enhanced_prompt")) (jsOr (raw.get (cl "summary")) (.str [])),
          original_prompt := jsOr (raw.get (cl "original_prompt")) (.str []),
          style := jsOr (raw.get (cl "style")) (.str []),
          generation_metadata := .str [] }
      | none => emptyImageGenResult := by
  have hrest : extractCase3to6 raw =
      match firstUrlMatch (stringify (jsOr raw (.obj []))) with
      | some u =>
        { image_url := .str u,
          enhanced_prompt := jsOr (raw.get (cl "enhanced_prompt")) (jsOr (raw.get (cl "summary")) (.str [])),
          original_prompt := jsOr (raw.get (cl "original_prompt")) (.str []),
          style := jsOr (raw.get (cl "style")) (.str []),
          generation_metadata := .str [] }
      | none => emptyImageGenResult := by
    unfold extractCase3to6
    rw [h3, h4]
    simp only [Bool.false_eq_true, if_false]
    cases raw with
    | str s => exact absurd h5 (by simp [JsonVal.isStr])
    | num n => rfl
    | bool b => rfl
    | null => rfl
    | undefined => rfl
    | arr vs => rfl
    | obj fs => rfl
  unfold extractImageResult
  rw [h1]
  simp only [Bool.false_eq_true, if_false]
  cases hguard : (truthy (raw.get (cl "message")) && (raw.get (cl "message")).isStr) with
  | false =>
    simp only [Bool.false_eq_true, if_false]
    exact hrest
  | true =>
    have hstr : (raw.get (cl "message")).isStr = true := by
      cases hb : (raw.get (cl "message")).isStr
      · rw [hb, Bool.and_false] at hguard
        exact absurd hguard (by decide)
      · rfl
    obtain ⟨s, hm⟩ : ∃ s, raw.get (cl "message") = .str s := by
      cases hv : raw.get (cl "message") <;> rw [hv] at hstr <;>
        simp [JsonVal.isStr] at hstr
      · exact ⟨_, rfl⟩
    rw [if_pos rfl, hm]
    simp only [JsonVal.strVal, h2 s hm, Bool.false_eq_true, if_false]
    exact hrest

/-- The URL-sniffing scenario value from the claim. -/
def rawNotePng : JsonVal :=
  .obj [(cl "note", .str (cl "see https://x.com/pic.PNG for result"))]

/-- Witness for C4: the `note`-only object from the claim, where the
sniffed `image_url` is `https://x.com/pic.PNG` with its original casing. -/
theorem extractFallback_sniff_C4_witness :
    extractImageResult rawNotePng =
      { image_url := .str (cl "https://x.com/pic.PNG"),
        enhanced_prompt := .str [],
        original_prompt := .str [],
        style := .str [],
        generation_metadata := .str [] } := by
  have h := extractFallback_sniff_C4 rawNotePng (by decide)
    (fun s hs => absurd hs (by intro hh; exact JsonVal.noConfusion hh))
    (by decide) (by decide) (by decide)
  exact h.trans (by rfl)

theorem matchesCI_head_h_false (c : Char) (cs ps : List Char)
    (h : (c.toLower == 'h') = false) :
    matchesCI ('h' :: ps) (c :: cs) = false := by
  unfold matchesCI
  rw [h, Bool.false_and]

theorem matchUrlAt_head_h_false (c : Char) (cs : List Char)
    (h : (c.toLower == 'h') = false) :
    matchUrlAt (c :: cs) = none := by
  unfold matchUrlAt
  rw [show cl "https://" = 'h' :: cl "ttps://" from rfl,
      show cl "http://" = 'h' :: cl "ttp://" from rfl,
      matchesCI_head_h_false c cs _ h, matchesCI_head_h_false c cs _ h]
  simp

theorem firstUrlMatch_of_no_h (cs : List Char)
    (h : ∀ c ∈ cs, (c.toLower == 'h') = false) :
    firstUrlMatch cs = none := by
  induction cs with
  | nil => rfl
  | cons c cs ih =>
    unfold firstUrlMatch
    rw [matchUrlAt_head_h_false c cs (h c (List.mem_cons_self c cs))]
    exact ih (fun d hd => h d (List.mem_cons_of_mem c hd))

theorem digitChar_toLower_ne_h (d : Nat) : ((digitChar d).toLower == 'h') = false := by
  unfold digitChar
  split_ifs <;> decide

theorem natDec_no_h (n : Nat) : ∀ c ∈ natDec n, (c.toLower == 'h') = false := by
  induction n using Nat.strong_induction_on with
  | _ n ih =>
    intro c hc
    unfold natDec at hc
    split at hc
    · simp only [List.mem_singleton] at hc
      exact hc ▸ digitChar_toLower_ne_h n
    · rw [List.mem_append, List.mem_singleton] at hc
      cases hc with
      | inl hm => exact ih (n / 10) (Nat.div_lt_self (by omega) (by omega)) c hm
      | inr he => exact he ▸ digitChar_toLower_ne_h (n % 10)

theorem intDec_no_h (n : Int) : ∀ c ∈ intDec n, (c.toLower == 'h') = false := by
  intro c hc
  unfold intDec at hc
  split at hc
  · rw [List.mem_cons] at hc
    cases hc with
    | inl he => exact he ▸ (by decide)
    | inr hm => exact natDec_no_h n.natAbs c hm
  · exact natDec_no_h n.toNat c hc

/-- C5: a `null`, `undefined`, numeric, or empty-object raw response
yields the record with all five fields equal to the empty string; the
Lean model is total, matching the claim that no such call throws. -/
theorem extractDegenerate_empty_C5 :
    extractImageResult .null = emptyImageGenResult ∧
    extractImageResult .undefined = emptyImageGenResult ∧
    extractImageResult (.obj []) = emptyImageGenResult ∧
    ∀ n : Int, extractImageResult (.num n) = emptyImageGenResult := by
  refine ⟨rfl, rfl, rfl, ?_⟩
  intro n
  have e1 : extractImageResult (.num n) =
      match firstUrlMatch (stringify (jsOr (.num n) (.obj []))) with
      | some u =>
        { image_url := .str u,
          enhanced_prompt := jsOr ((JsonVal.num n).get (cl "enhanced_prompt"))
            (jsOr ((JsonVal.num n).get (cl "summary")) (.str [])),
          original_prompt := jsOr ((JsonVal.num n).get (cl "original_prompt")) (.str []),
          style := jsOr ((JsonVal.num n).get (cl "style")) (.str []),
          generation_metadata := .str [] }
      | none => emptyImageGenResult := rfl
  rw [e1]
  by_cases hn : n = 0
  · subst hn
    rfl
  · have hor : jsOr (.num n) (.obj []) = .num n := by
      simp [jsOr, truthy, hn]
    rw [hor, show stringify (.num n) = intDec n from rfl,
        firstUrlMatch_of_no_h (intDec n) (intDec_no_h n)]

/-- C6: the image-mode caller applies the key-value parser to
`response.message` and then to `raw_response` only while `image_url` is
still falsy; each fallback overwrites only `image_url` and fills
`enhanced_prompt` and `style` only when they were still falsy — populated
fields are never overwritten — and a still-empty `original_prompt` is
finally filled with the user's trimmed prompt text. -/
theorem handleGenerate_fallbacks_C6 :
    (∀ a m r p, handleGenerateImageData a m r p =
        origFill (mergeStep (mergeStep (extractImageResult a) m) r) p) ∧
    (∀ d m, truthy d.image_url = true → mergeStep d m = d) ∧
    (∀ d m, truthy d.enhanced_prompt = true →
        (mergeStep d m).enhanced_prompt = d.enhanced_prompt) ∧
    (∀ d m, truthy d.style = true → (mergeStep d m).style = d.style) ∧
    (∀ d m, (mergeStep d m).original_prompt = d.original_prompt ∧
        (mergeStep d m).generation_metadata = d.generation_metadata) ∧
    (∀ d m, truthy d.image_url = false → truthy m = true →
        truthy (parseAny m).image_url = true →
        mergeStep d m =
          { d with
            image_url := (parseAny m).image_url,
            enhanced_prompt := if truthy d.enhanced_prompt then d.enhanced_prompt
              else (parseAny m).enhanced_prompt,
            style := if truthy d.style then d.style else (parseAny m).style }) ∧
    (∀ d p, truthy d.original_prompt = true → origFill d p = d) ∧
    (∀ d p, truthy d.original_prompt = false →
        origFill d p = { d with original_prompt := .str (jsTrim p) }) := by
  refine ⟨fun a m r p => rfl, ?_, ?_, ?_, ?_, ?_, ?_, ?_⟩
  · intro d m h
    simp [mergeStep, h]
  · intro d m h
    unfold mergeStep
    split_ifs <;> simp_all
  · intro d m h
    unfold mergeStep
    split_ifs <;> simp_all
  · intro d m
    unfold mergeStep
    split_ifs <;> simp
  · intro d m h1 h2 h3
    unfold mergeStep
    rw [h1]
    simp only [Bool.not_false, Bool.true_and, h2, h3, if_true]
    split_ifs with he hs <;> simp_all
  · intro d p h
    simp [origFill, h]
  · intro d p h
    simp [origFill, h]

/-- Witness for C6: a record with a populated `image_url` is untouched by
a message fallback, and an all-empty record gets `original_prompt` filled
with the trimmed prompt. -/
theorem handleGenerate_fallbacks_C6_witness :
    mergeStep
        { image_url := .str (cl "http://a.com/i.png"), enhanced_prompt := .str (cl "e"),
          original_prompt := .str (cl "o"), style := .str (cl "s"),
          generation_metadata := .str (cl "g") }
        (.str (cl "image_url: http://b.com/j.png")) =
      { image_url := .str (cl "http://a.com/i.png"), enhanced_prompt := .str (cl "e"),
        original_prompt := .str (cl "o"), style := .str (cl "s"),
        generation_metadata := .str (cl "g") } ∧
    origFill emptyImageGenResult (cl " a cat ") =
      { emptyImageGenResult with original_prompt := .str (cl "a cat") } :=
  ⟨handleGenerate_fallbacks_C6.2.1 _ _ rfl,
   (handleGenerate_fallbacks_C6.2.2.2.2.2.2.2 emptyImageGenResult (cl " a cat ") rfl).trans
     (by rfl)⟩

theorem take50_take49 {α : Type} (A : List α) (e : α) (B : List α) :
    (A ++ e :: B.take 49).take 50 = (A ++ e :: B).take 50 := by
  rw [List.take_append_eq_append_take, List.take_append_eq_append_take]
  rcases hk : 50 - A.length with _ | j
  · rfl
  · rw [List.take_succ_cons, List.take_succ_cons, List.take_take]
    have hj : min j 49 = j := by omega
    rw [hj]

theorem foldl_appendHistory (es : List HistoryItem) :
    ∀ acc : List HistoryItem, acc.length ≤ 50 →
      es.foldl appendHistory acc = (es.reverse ++ acc).take 50 := by
  induction es with
  | nil =>
    intro acc hlen
    simp [List.take_of_length_le hlen]
  | cons e es ih =>
    intro acc hlen
    rw [List.foldl_cons]
    have hstep : appendHistory acc e = e :: acc.take 49 := rfl
    have hlen2 : (appendHistory acc e).length ≤ 50 := by
      simp only [appendHistory, List.length_cons, List.length_take]
      omega
    rw [ih _ hlen2, hstep, List.reverse_cons, List.append_assoc, List.singleton_append,
        take50_take49]

/-- C7: appending a history entry prepends it and truncates the previous
list to 49 entries, so the history never exceeds 50 entries, surviving
entries are kept verbatim (replaced, never edited), and appending any
sequence of entries to the empty history leaves exactly the 50 most recent
ones, newest first. -/
theorem historyAppend_cap_C7 :
    (∀ (prev : List HistoryItem) (e : HistoryItem),
      (appendHistory prev e).length ≤ 50 ∧ appendHistory prev e = e :: prev.take 49) ∧
    (∀ es : List HistoryItem, es.foldl appendHistory [] = es.reverse.take 50) := by
  constructor
  · intro prev e
    refine ⟨?_, rfl⟩
    simp only [appendHistory, List.length_cons, List.length_take]
    omega
  · intro es
    rw [foldl_appendHistory es [] (by simp)]
    simp

theorem natDec_ne_nil (n : Nat) : natDec n ≠ [] := by
  unfold natDec
  split
  · simp
  · simp

theorem digitChar_inj : ∀ a < 10, ∀ b < 10, digitChar a = digitChar b → a = b := by decide

theorem natDec_inj : ∀ m n : Nat, natDec m = natDec n → m = n := by
  intro m
  induction m using Nat.strong_induction_on with
  | _ m ih =>
    intro n h
    unfold natDec at h
    split at h <;> split at h
    · rename_i hm hn
      simp only [List.cons.injEq, and_true] at h
      exact digitChar_inj m hm n hn h
    · rename_i hm hn
      have h0 : (natDec (n / 10)).length = 0 := by
        have hlen := congrArg List.length h
        simp only [List.length_append, List.length_cons, List.length_nil] at hlen
        omega
      exact absurd (List.length_eq_zero.mp h0) (natDec_ne_nil (n / 10))
    · rename_i hm hn
      have h0 : (natDec (m / 10)).length = 0 := by
        have hlen := congrArg List.length h
        simp only [List.length_append, List.length_cons, List.length_nil] at hlen
        omega
      exact absurd (List.length_eq_zero.mp h0) (natDec_ne_nil (m / 10))
    · rename_i hm hn
      have hlen := congrArg List.length h
      simp only [List.length_append, List.length_cons, List.length_nil] at hlen
      obtain ⟨hA, hd⟩ := List.append_inj h (by omega)
      simp only [List.cons.injEq, and_true] at hd
      have hmod : m % 10 = n % 10 :=
        digitChar_inj (m % 10) (Nat.mod_lt _ (by omega)) (n % 10) (Nat.mod_lt _ (by omega)) hd
      have hdiv : m / 10 = n / 10 :=
        ih (m / 10) (Nat.div_lt_self (by omega) (by omega)) (n / 10) hA
      omega

/-- C8 counterexample: two distinct history entries created at the same
clock reading (different prompts, same millisecond) share the same id, so
ids do not uniquely identify entries — and the id built by the source is
`gen-` plus the clock only, with no random suffix. -/
theorem historyId_collision_C8 :
    mkHistoryItem 1000 (cl "a cat") (cl "Realistic") (cl "Square (1024x1024)") (cl "HD")
        emptyImageGenResult ≠
      mkHistoryItem 1000 (cl "a dog") (cl "Realistic") (cl "Square (1024x1024)") (cl "HD")
        emptyImageGenResult ∧
    (mkHistoryItem 1000 (cl "a cat") (cl "Realistic") (cl "Square (1024x1024)") (cl "HD")
        emptyImageGenResult).id =
      (mkHistoryItem 1000 (cl "a dog") (cl "Realistic") (cl "Square (1024x1024)") (cl "HD")
        emptyImageGenResult).id :=
  ⟨fun h => absurd (congrArg HistoryItem.prompt h) (by decide), rfl⟩

/-- C8 amended: every entry created on a successful generation has id
`gen-` followed by the decimal clock reading at creation (no random
suffix); entries created at distinct clock readings therefore have
distinct ids, while entries created within the same millisecond collide. -/
theorem historyId_clock_C8 :
    (∀ (now : Nat) (p s z q : List Char) (r : ImageGenResult),
      (mkHistoryItem now p s z q r).id = cl "gen-" ++ natDec now) ∧
    (∀ (n1 n2 : Nat) (p1 s1 z1 q1 p2 s2 z2 q2 : List Char) (r1 r2 : ImageGenResult),
      n1 ≠ n2 →
      (mkHistoryItem n1 p1 s1 z1 q1 r1).id ≠ (mkHistoryItem n2 p2 s2 z2 q2 r2).id) := by
  constructor
  · intro now p s z q r
    rfl
  · intro n1 n2 p1 s1 z1 q1 p2 s2 z2 q2 r1 r2 hne h
    have h2 : natDec n1 = natDec n2 := by
      have := h
      simpa [mkHistoryItem] using this
    exact hne (natDec_inj n1 n2 h2)

/-- Witness for C8 (amended): two entries created one millisecond apart
have different ids. -/
theorem historyId_clock_C8_witness :
    (mkHistoryItem 1000 (cl "a cat") (cl "Realistic") (cl "Square (1024x1024)") (cl "HD")
        emptyImageGenResult).id ≠
      (mkHistoryItem 1001 (cl "a cat") (cl "Realistic") (cl "Square (1024x1024)") (cl "HD")
        emptyImageGenResult).id :=
  historyId_clock_C8.2 1000 1001 (cl "a cat") (cl "Realistic") (cl "Square (1024x1024)")
    (cl "HD") (cl "a cat") (cl "Realistic") (cl "Square (1024x1024)") (cl "HD")
    emptyImageGenResult emptyImageGenResult (by decide)

theorem nv_nv (a b c : JsonVal) :
    nv (nv a b) c = if isNullish a then (if isNullish b then c else b) else a := by
  unfold nv
  rcases ha : isNullish a <;> simp [ha]

/-- C9: the enhancement-mode `extractImageData` returns `summary` from
`raw.summary` (empty string when nullish) and takes each of the five data
fields preferentially from `raw.data.<field>`, falling back to
`raw.<field>` and finally to the empty string; its definition never
invokes the key-value text parser. -/
theorem extractImageData_fields_C9 (raw : JsonVal) :
    (extractImageData raw).2 =
      (if isNullish (raw.get (cl "summary")) then .str [] else raw.get (cl "summary")) ∧
    (extractImageData raw).1.enhanced_prompt =
      (if isNullish ((raw.get (cl "data")).get (cl "enhanced_prompt")) then
        (if isNullish (raw.get (cl "enhanced_prompt")) then .str []
         else raw.get (cl "enhanced_prompt"))
       else (raw.get (cl "data")).get (cl "enhanced_prompt")) ∧
    (extractImageData raw).1.style_suggestion =
      (if isNullish ((raw.get (cl "data")).get (cl "style_suggestion")) then
        (if isNullish (raw.get (cl "style_suggestion")) then .str []
         else raw.get (cl "style_suggestion"))
       else (raw.get (cl "data")).get (cl "style_suggestion")) ∧
    (extractImageData raw).1.size_recommendation =
      (if isNullish ((raw.get (cl "data")).get (cl "size_recommendation")) then
        (if isNullish (raw.get (cl "size_recommendation")) then .str []
         else raw.get (cl "size_recommendation"))
       else (raw.get (cl "data")).get (cl "size_recommendation")) ∧
    (extractImageData raw).1.quality_notes =
      (if isNullish ((raw.get (cl "data")).get (cl "quality_notes")) then
        (if isNullish (raw.get (cl "quality_notes")) then .str []
         else raw.get (cl "quality_notes"))
       else (raw.get (cl "data")).get (cl "quality_notes")) ∧
    (extractImageData raw).1.original_prompt =
      (if isNullish ((raw.get (cl "data")).get (cl "original_prompt")) then
        (if isNullish (raw.get (cl "original_prompt")) then .str []
         else raw.get (cl "original_prompt"))
       else (raw.get (cl "data")).get (cl "original_prompt")) := by
  refine ⟨?_, ?_, ?_, ?_, ?_, ?_⟩ <;>
    simp only [extractImageData, nv] <;> split_ifs <;> simp_all
